import Mathlib

/-!
Verification of the escape-room scheduling core (src/travel.py, src/models.py,
src/scheduler.py) against its natural-language specification.

Conventions of the shallow embedding:
* Python `str` is `String`; the substring test `needle in hay` is
  `strContains hay needle` (char-list infix).
* Python `datetime` instants are modelled as `Int` seconds since an arbitrary
  epoch; `(b - a).total_seconds() / 60` becomes `((b - a : Int) : Rat) / 60`.
* Python `float` arithmetic in the balance scorer is modelled exactly over `Rat`
  (all values reachable in the claims are exact in binary floats as well).
* Python `dict` is an association list with overwrite-on-insert (`dictInsert`),
  lookup of the unique entry for a key (`dictLookup`).
* The remote Naver dependency (`get_travel_time`) is a parameter
  `remote : String → String → Option Nat`: `some t` is a successful
  minutes result, `none` is the no-result/fault case (the source converts every
  exception to `None`).
* pydantic model construction is `mk…` returning `Except String _`; a field
  validator failure is `Except.error`, a missing required field is
  `Except.error`, and a missing optional field is an `Option` argument `none`
  replaced by the declared default.
-/

set_option maxHeartbeats 1000000

/-- Character-list substring occurrence: `needle` occurs contiguously in the
second argument. -/
def listContainsSub (needle : List Char) : List Char → Bool
  | [] => needle.isEmpty
  | b :: bs => needle.isPrefixOf (b :: bs) || listContainsSub needle bs

/-- Python substring test: `sub in hay` on strings. -/
def strContains (hay sub : String) : Bool :=
  listContainsSub sub.toList hay.toList

/-- The fixed district list of `NaverMapsClient._estimate_travel_time`
(src/travel.py line 173), in source order. -/
def districts : List String :=
  ["강남구", "서초구", "송파구", "강동구", "마포구", "용산구", "성동구"]

/-- Embedding of `NaverMapsClient._estimate_travel_time` (src/travel.py
lines 157-184).  The source loops over `districts` and keeps overwriting
`start_district` / `end_district` on every match, so the accumulator after the
loop is exactly this `foldl`. -/
def _estimate_travel_time (start «end» : String) : Nat :=
  let start_district :=
    districts.foldl (fun acc d => if strContains start d then some d else acc)
      (none : Option String)
  let end_district :=
    districts.foldl (fun acc d => if strContains «end» d then some d else acc)
      (none : Option String)
  if start_district ≠ none ∧ start_district = end_district then 25 else 45

/-- Reference definition written from claim C1's words: resolve each address to
the FIRST district label, in list order, occurring as a substring. -/
def estimateMinutesSpecFirst (start «end» : String) : Nat :=
  let start_district := districts.find? (fun d => strContains start d)
  let end_district := districts.find? (fun d => strContains «end» d)
  if start_district ≠ none ∧ start_district = end_district then 25 else 45

/-- Reference definition for the amended claim: resolve each address to the
LAST district label, in list order, occurring as a substring (the last element
of the filtered list). -/
def estimateMinutesLast (start «end» : String) : Nat :=
  let start_district := (districts.filter (fun d => strContains start d)).getLast?
  let end_district := (districts.filter (fun d => strContains «end» d)).getLast?
  if start_district ≠ none ∧ start_district = end_district then 25 else 45

/-- A fold that overwrites its accumulator on every match computes the last
match: it equals `getLast?` of the filtered list (falling back to the initial
accumulator when nothing matches). -/
theorem foldl_overwrite_eq_getLast_filter {α : Type} (p : α → Bool) :
    ∀ (l : List α) (acc : Option α),
      l.foldl (fun a d => if p d then some d else a) acc =
        match (l.filter p).getLast? with
        | some x => some x
        | none => acc := by
  intro l
  induction l with
  | nil => intro acc; rfl
  | cons d t ih =>
    intro acc
    by_cases hp : p d
    · rw [List.foldl_cons, ih]
      have hf : (d :: t).filter p = d :: t.filter p := by
        simp [List.filter, hp]
      rw [hf]
      cases hft : t.filter p with
      | nil => simp [hp]
      | cons x xs =>
        rw [List.getLast?_cons_cons]
        cases hg : (x :: xs).getLast? with
        | none => simp [List.getLast?] at hg
        | some y => simp
    · rw [List.foldl_cons, ih]
      have hf : (d :: t).filter p = t.filter p := by
        simp [List.filter, hp]
      rw [hf]
      simp [hp]

/-- Specialisation to a `none` start accumulator. -/
theorem foldl_overwrite_none {α : Type} (p : α → Bool) (l : List α) :
    l.foldl (fun a d => if p d then some d else a) (none : Option α) =
      (l.filter p).getLast? := by
  rw [foldl_overwrite_eq_getLast_filter]
  cases (l.filter p).getLast? <;> rfl

/-- The observable state threaded through `get_travel_time_matrix`'s loops:
the dictionary built so far, the `current` progress counter, and the trace of
`progress_callback(current, total_pairs)` invocations. -/
structure MatrixState where
  matrix : List ((String × String) × Nat)
  current : Nat
  calls : List (Nat × Nat)

/-- Python dict assignment `m[k] = v`: overwrite the value of an existing key
in place, otherwise append a new entry. -/
def dictInsert (m : List ((String × String) × Nat)) (k : String × String)
    (v : Nat) : List ((String × String) × Nat) :=
  if m.any (fun e => decide (e.1 = k)) then
    m.map (fun e => if e.1 = k then (k, v) else e)
  else
    m ++ [(k, v)]

/-- Python dict lookup `m[k]` (as an `Option`, `none` for a missing key). -/
def dictLookup (m : List ((String × String) × Nat)) (k : String × String) :
    Option Nat :=
  (m.find? (fun e => decide (e.1 = k))).map Prod.snd

/-- The value stored for an off-diagonal pair: the remote result if present,
else the `_estimate_travel_time` fallback (src/travel.py lines 142-149). -/
def resolveTime (remote : String → String → Option Nat)
    (start endAddr : String) : Nat :=
  match remote start endAddr with
  | some t => t
  | none => _estimate_travel_time start endAddr

/-- One inner-loop iteration of `get_travel_time_matrix` (src/travel.py
lines 138-153): indices `i`, `j`, strings `start`, `endAddr`. -/
def travelStep (remote : String → String → Option Nat) (total : Nat)
    (i : Nat) (start : String) (j : Nat) (endAddr : String)
    (st : MatrixState) : MatrixState :=
  if i = j then
    ⟨dictInsert st.matrix (start, endAddr) 0, st.current, st.calls⟩
  else
    ⟨dictInsert st.matrix (start, endAddr) (resolveTime remote start endAddr),
     st.current + 1, st.calls ++ [(st.current + 1, total)]⟩

/-- The inner `for j, end in enumerate(addresses)` loop, with `j` the index of
the head of `cols`. -/
def colLoop (remote : String → String → Option Nat) (total : Nat)
    (i : Nat) (start : String) (j : Nat) (cols : List String)
    (st : MatrixState) : MatrixState :=
  match cols with
  | [] => st
  | e :: rest =>
      colLoop remote total i start (j + 1) rest
        (travelStep remote total i start j e st)

/-- The outer `for i, start in enumerate(addresses)` loop, with `i` the index
of the head of `rows`. -/
def rowLoop (remote : String → String → Option Nat) (total : Nat)
    (cols : List String) (i : Nat) (rows : List String)
    (st : MatrixState) : MatrixState :=
  match rows with
  | [] => st
  | s :: rest =>
      rowLoop remote total cols (i + 1) rest
        (colLoop remote total i s 0 cols st)

/-- Embedding of `NaverMapsClient.get_travel_time_matrix` (src/travel.py
lines 120-155), parameterised by the behaviour of the remote dependency. -/
def get_travel_time_matrix (remote : String → String → Option Nat)
    (addresses : List String) : MatrixState :=
  rowLoop remote (addresses.length * (addresses.length - 1)) addresses 0
    addresses ⟨[], 0, []⟩

/-- The remote dependency failing on every call (unreachable service). -/
def failRemote : String → String → Option Nat := fun _ _ => none

/-- First address of the spec's end-to-end scenario. -/
def addr1 : String := "서울 강남구 테헤란로 123"

/-- Second address of the spec's end-to-end scenario. -/
def addr2 : String := "서울 마포구 홍익로 456"

/-- The closed 3-value horror-position set of `User` (src/models.py line 47). -/
inductive HorrorPosition where
  | tank
  | commoner
  | scaredy
deriving DecidableEq

/-- Embedding of the `Reservation` pydantic model (src/models.py lines 9-38).
Instants are `Int` seconds since an arbitrary epoch. -/
structure Reservation where
  room_name : String
  start_time : Int
  end_time : Int
  address : String
  theme : String
  min_capacity : Int
  optimal_capacity : Int
  max_capacity : Int

/-- Embedding of the `User` pydantic model (src/models.py lines 41-67). -/
structure User where
  name : String
  available_from : Int
  available_until : Int
  horror_position : HorrorPosition

/-- Embedding of the `TeamAssignment` pydantic model (src/models.py
lines 70-76). -/
structure TeamAssignment where
  team_id : Int
  reservation : Reservation
  members : List User
  travel_time_from_previous : Int

/-- Embedding of the `Schedule` pydantic model (src/models.py lines 79-85);
`teams` is the dict `team_id -> list of assignments` as an association list,
`score` the dict `str -> float` as an association list over `Rat`. -/
structure Schedule where
  scenario_id : Int
  teams : List (Int × List TeamAssignment)
  score : List (String × Rat)
  notes : String

/-- Construction-time validation of `Reservation` (pydantic): the only field
validators are `parse_datetime` (a parser, not a check) and `validate_capacity`,
which rejects each of the three capacities when it is `≤ 0`
(src/models.py lines 29-35).  No other constraint is checked. -/
def mkReservation (room_name : String) (start_time end_time : Int)
    (address theme : String) (min_capacity optimal_capacity max_capacity : Int) :
    Except String Reservation :=
  if min_capacity ≤ 0 then Except.error "Capacity must be positive"
  else if optimal_capacity ≤ 0 then Except.error "Capacity must be positive"
  else if max_capacity ≤ 0 then Except.error "Capacity must be positive"
  else Except.ok ⟨room_name, start_time, end_time, address, theme,
    min_capacity, optimal_capacity, max_capacity⟩

/-- Construction of `TeamAssignment` with possibly-absent fields: `members`
has no default in the source (a required pydantic field, absence is a
validation error); `travel_time_from_previous` defaults to `0`
(src/models.py lines 70-76). -/
def mkTeamAssignment (team_id : Int) (reservation : Reservation)
    (members : Option (List User)) (travel_time_from_previous : Option Int) :
    Except String TeamAssignment :=
  match members with
  | none => Except.error "Field required"
  | some ms =>
      Except.ok ⟨team_id, reservation, ms, travel_time_from_previous.getD 0⟩

/-- Construction of `Schedule` with possibly-absent fields: `scenario_id`,
`teams` and `score` are required, `notes` defaults to the empty string
(src/models.py lines 79-85). -/
def mkSchedule (scenario_id : Int)
    (teams : Option (List (Int × List TeamAssignment)))
    (score : Option (List (String × Rat))) (notes : Option String) :
    Except String Schedule :=
  match teams, score with
  | some tm, some sc => Except.ok ⟨scenario_id, tm, sc, notes.getD ""⟩
  | _, _ => Except.error "Field required"

/-- Whether a pydantic construction succeeded. -/
def constructionOk {α : Type} : Except String α → Bool
  | Except.ok _ => true
  | Except.error _ => false

/-- Embedding of `ScheduleValidator.is_capacity_valid` (src/scheduler.py
lines 34-56). -/
def is_capacity_valid (reservation : Reservation) (num_members : Int)
    (flexible : Bool) : Bool :=
  if flexible then
    decide (reservation.min_capacity - 1 ≤ num_members ∧
      num_members ≤ reservation.max_capacity + 1)
  else
    decide (reservation.min_capacity ≤ num_members ∧
      num_members ≤ reservation.max_capacity)

/-- Embedding of `ScheduleValidator.is_travel_time_feasible` (src/scheduler.py
lines 58-80): the gap in minutes is the exact rational
`(next.start_time - prev.end_time) / 60` (the source divides
`total_seconds()` by 60 in float arithmetic). -/
def is_travel_time_feasible (prev_reservation next_reservation : Reservation)
    (travel_time_minutes : Int) : Bool :=
  decide ((((next_reservation.start_time - prev_reservation.end_time : Int) :
    Rat) / 60) ≥ (travel_time_minutes : Rat))

/-- The per-team assignment counts of a schedule, as rationals (the list
`assignment_counts` of src/scheduler.py line 187 cast into the float
arithmetic that follows). -/
def teamCountsQ (schedule : Schedule) : List Rat :=
  schedule.teams.map (fun t => (t.2.length : Rat))

/-- Population mean of a list of rationals (claim C6's reference `M`). -/
def popMean (l : List Rat) : Rat := l.sum / l.length

/-- Population variance of a list of rationals (claim C6's reference `V`). -/
def popVariance (l : List Rat) : Rat :=
  (l.map (fun c => (c - popMean l) ^ 2)).sum / (l.length : Rat)

/-- Embedding of `ScheduleAnalyzer.calculate_balance_score` (src/scheduler.py
lines 175-206), with Python float arithmetic carried out exactly over `Rat`. -/
def calculate_balance_score (schedule : Schedule) : Rat :=
  if schedule.teams.isEmpty then 0
  else
    let assignment_counts := teamCountsQ schedule
    if assignment_counts.isEmpty then 0
    else
      let mean_count := assignment_counts.sum / (assignment_counts.length : Rat)
      let variance :=
        (assignment_counts.map (fun c => (c - mean_count) ^ 2)).sum /
          (assignment_counts.length : Rat)
      if mean_count = 0 then 1
      else max 0 (1 - variance / mean_count ^ 2)

/-- A fixed reservation used by the concrete instances below. -/
def demoReservation : Reservation :=
  ⟨"미스터리 하우스", 0, 7200, addr1, "추리", 2, 4, 5⟩

/-- A fixed team assignment used by the concrete instances below. -/
def demoAssignment : TeamAssignment := ⟨1, demoReservation, [], 0⟩

/-- The schedule with per-team assignment counts 2, 2, 2. -/
def sched222 : Schedule :=
  ⟨1, [(1, [demoAssignment, demoAssignment]), (2, [demoAssignment, demoAssignment]),
    (3, [demoAssignment, demoAssignment])], [], ""⟩

/-- The schedule with per-team assignment counts 4, 0. -/
def sched40 : Schedule :=
  ⟨2, [(1, [demoAssignment, demoAssignment, demoAssignment, demoAssignment]),
    (2, [])], [], ""⟩

/-- The empty-teams schedule. -/
def schedEmpty : Schedule := ⟨3, [], [], ""⟩

/-- Searching for key `k` after replacing every key-`k` entry by `(k, v)`
finds `(k, v)` exactly when some entry had key `k`. -/
theorem find?_replace_self (m : List ((String × String) × Nat))
    (k : String × String) (v : Nat) :
    (m.map (fun e => if e.1 = k then (k, v) else e)).find?
        (fun e => decide (e.1 = k)) =
      if m.any (fun e => decide (e.1 = k)) then some (k, v) else none := by
  induction m with
  | nil => rfl
  | cons e t ih =>
    rw [List.map_cons, List.any_cons]
    by_cases he : e.1 = k
    · rw [if_pos he, List.find?_cons_of_pos _ (by simp), decide_eq_true he,
        Bool.true_or, if_pos rfl]
    · rw [if_neg he, List.find?_cons_of_neg _ (by simp [he]), ih,
        decide_eq_false he, Bool.false_or]

/-- Searching for key `k` in a map-replace of key-`k` entries is unchanged for
another key `k'`. -/
theorem find?_replace_ne (m : List ((String × String) × Nat))
    (k k' : String × String) (v : Nat) (hk : k' ≠ k) :
    (m.map (fun e => if e.1 = k then (k, v) else e)).find?
        (fun e => decide (e.1 = k')) =
      m.find? (fun e => decide (e.1 = k')) := by
  induction m with
  | nil => rfl
  | cons e t ih =>
    rw [List.map_cons]
    by_cases he : e.1 = k
    · have h1 : ¬ (((k, v) : (String × String) × Nat).1 = k') :=
        fun hkk => hk hkk.symm
      have h2 : ¬ (e.1 = k') := by
        rw [he]
        intro hkk
        exact hk hkk.symm
      rw [if_pos he, List.find?_cons_of_neg _ (by simp [h1]),
        List.find?_cons_of_neg _ (by simp [h2]), ih]
    · rw [if_neg he]
      by_cases he' : e.1 = k'
      · rw [List.find?_cons_of_pos _ (by simp [he']),
          List.find?_cons_of_pos _ (by simp [he'])]
      · rw [List.find?_cons_of_neg _ (by simp [he']),
          List.find?_cons_of_neg _ (by simp [he']), ih]

/-- Searching an appended fresh entry: if no entry of `m` has key `k`, the
search finds the appended `(k, v)`. -/
theorem find?_append_fresh (m : List ((String × String) × Nat))
    (k : String × String) (v : Nat)
    (h : m.any (fun e => decide (e.1 = k)) = false) :
    (m ++ [(k, v)]).find? (fun e => decide (e.1 = k)) = some (k, v) := by
  induction m with
  | nil => simp [List.find?]
  | cons e t ih =>
    rw [List.any_cons, Bool.or_eq_false_iff] at h
    have he : ¬ e.1 = k := by
      simpa using h.1
    rw [List.cons_append, List.find?_cons_of_neg _ (by simp [he]), ih h.2]

/-- Searching an appended entry of another key is unchanged. -/
theorem find?_append_ne (m : List ((String × String) × Nat))
    (k k' : String × String) (v : Nat) (hk : k' ≠ k) :
    (m ++ [(k, v)]).find? (fun e => decide (e.1 = k')) =
      m.find? (fun e => decide (e.1 = k')) := by
  induction m with
  | nil =>
    have h1 : ¬ (((k, v) : (String × String) × Nat).1 = k') :=
      fun hkk => hk hkk.symm
    simp [List.find?, h1]
  | cons e t ih =>
    by_cases he' : e.1 = k'
    · rw [List.cons_append, List.find?_cons_of_pos _ (by simp [he']),
        List.find?_cons_of_pos _ (by simp [he'])]
    · rw [List.cons_append, List.find?_cons_of_neg _ (by simp [he']),
        List.find?_cons_of_neg _ (by simp [he']), ih]

/-- Looking up the key just inserted yields the inserted value. -/
theorem dictLookup_dictInsert_self (m : List ((String × String) × Nat))
    (k : String × String) (v : Nat) :
    dictLookup (dictInsert m k v) k = some v := by
  unfold dictInsert dictLookup
  by_cases h : m.any (fun e => decide (e.1 = k)) = true
  · rw [if_pos h, find?_replace_self, if_pos h]
    rfl
  · have h' : m.any (fun e => decide (e.1 = k)) = false := by
      cases hb : m.any (fun e => decide (e.1 = k)) with
      | false => rfl
      | true => exact absurd hb h
    rw [if_neg h, find?_append_fresh m k v h']
    rfl

/-- Looking up a different key is unchanged by an insertion. -/
theorem dictLookup_dictInsert_ne (m : List ((String × String) × Nat))
    (k k' : String × String) (v : Nat) (hk : k' ≠ k) :
    dictLookup (dictInsert m k v) k' = dictLookup m k' := by
  unfold dictInsert dictLookup
  by_cases h : m.any (fun e => decide (e.1 = k)) = true
  · rw [if_pos h, find?_replace_ne m k k' v hk]
  · rw [if_neg h, find?_append_ne m k k' v hk]

/-- The callback trace produced by `m` consecutive off-diagonal pairs starting
after counter value `c`: `[(c+1, total), …, (c+m, total)]`. -/
def expCalls (c total : Nat) : Nat → List (Nat × Nat)
  | 0 => []
  | m + 1 => (c + 1, total) :: expCalls (c + 1) total m

/-- The number of indices in `[j, j + len)` different from `i`: the number of
off-diagonal inner-loop iterations of row `i` over a column segment. -/
def offCount (i j : Nat) : Nat → Nat
  | 0 => 0
  | len + 1 => (if i = j then 0 else 1) + offCount i (j + 1) len

theorem expCalls_append (total : Nat) :
    ∀ (a b c : Nat),
      expCalls c total (a + b) = expCalls c total a ++ expCalls (c + a) total b := by
  intro a
  induction a with
  | zero =>
    intro b c
    rw [Nat.zero_add, Nat.add_zero]
    rfl
  | succ a ih =>
    intro b c
    have h1 : a + 1 + b = (a + b) + 1 := by omega
    rw [h1]
    show (c + 1, total) :: expCalls (c + 1) total (a + b) = _
    rw [ih b (c + 1)]
    have h2 : c + 1 + a = c + (a + 1) := by omega
    rw [h2]
    rfl

theorem expCalls_eq_range (total : Nat) :
    ∀ (m c : Nat),
      expCalls c total m = (List.range m).map (fun k => (c + k + 1, total)) := by
  intro m
  induction m with
  | zero => intro c; rfl
  | succ m ih =>
    intro c
    rw [List.range_succ_eq_map, List.map_cons, List.map_map]
    show (c + 1, total) :: expCalls (c + 1) total m = _
    rw [ih (c + 1)]
    have h1 : ((fun k => (c + k + 1, total)) ∘ Nat.succ) =
        (fun k => (c + 1 + k + 1, total)) := by
      funext k
      show (c + (k + 1) + 1, total) = (c + 1 + k + 1, total)
      have : c + (k + 1) + 1 = c + 1 + k + 1 := by omega
      rw [this]
    rw [h1]

theorem offCount_in (i : Nat) :
    ∀ (len j : Nat), j ≤ i → i < j + len → offCount i j len = len - 1 := by
  intro len
  induction len with
  | zero =>
    intro j h1 h2
    omega
  | succ len ih =>
    intro j h1 h2
    by_cases hij : i = j
    · have hout : ∀ (len' j' : Nat), i < j' → offCount i j' len' = len' := by
        intro len'
        induction len' with
        | zero => intro j' _; rfl
        | succ len' ih' =>
          intro j' hj'
          have hne : ¬ i = j' := by omega
          show (if i = j' then 0 else 1) + offCount i (j' + 1) len' = len' + 1
          rw [if_neg hne, ih' (j' + 1) (by omega)]
          omega
      show (if i = j then 0 else 1) + offCount i (j + 1) len = len + 1 - 1
      rw [if_pos hij, hout len (j + 1) (by omega)]
      omega
    · show (if i = j then 0 else 1) + offCount i (j + 1) len = len + 1 - 1
      rw [if_neg hij, ih (j + 1) (by omega) (by omega)]
      omega

theorem offCount_in' (i : Nat) (len j : Nat) (h1 : j ≤ i) (h2 : i < j + len) :
    offCount i j len = len - 1 := offCount_in i len j h1 h2

/-- The inner loop advances the counter by the number of off-diagonal indices
and appends exactly the corresponding callback trace. -/
theorem colLoop_progress (remote : String → String → Option Nat)
    (total i : Nat) (start : String) :
    ∀ (cols : List String) (j : Nat) (st : MatrixState),
      (colLoop remote total i start j cols st).current =
          st.current + offCount i j cols.length ∧
        (colLoop remote total i start j cols st).calls =
          st.calls ++ expCalls st.current total (offCount i j cols.length) := by
  intro cols
  induction cols with
  | nil =>
    intro j st
    constructor
    · show st.current = st.current + offCount i j 0
      show st.current = st.current + 0
      rfl
    · show st.calls = st.calls ++ expCalls st.current total (offCount i j 0)
      show st.calls = st.calls ++ []
      rw [List.append_nil]
  | cons e rest ih =>
    intro j st
    by_cases hij : i = j
    · have hoc : offCount i j (e :: rest).length =
          offCount i (j + 1) rest.length := by
        show (if i = j then 0 else 1) + _ = _
        rw [if_pos hij, Nat.zero_add]
      have hstep : travelStep remote total i start j e st =
          ⟨dictInsert st.matrix (start, e) 0, st.current, st.calls⟩ := by
        unfold travelStep
        rw [if_pos hij]
      have h := ih (j + 1) (⟨dictInsert st.matrix (start, e) 0, st.current,
        st.calls⟩ : MatrixState)
      dsimp only at h
      show (colLoop remote total i start (j + 1) rest
          (travelStep remote total i start j e st)).current =
            st.current + offCount i j (e :: rest).length ∧
        (colLoop remote total i start (j + 1) rest
          (travelStep remote total i start j e st)).calls =
            st.calls ++ expCalls st.current total (offCount i j (e :: rest).length)
      rw [hstep, hoc]
      exact h
    · have hoc : offCount i j (e :: rest).length =
          1 + offCount i (j + 1) rest.length := by
        show (if i = j then 0 else 1) + _ = _
        rw [if_neg hij]
      have hstep : travelStep remote total i start j e st =
          ⟨dictInsert st.matrix (start, e) (resolveTime remote start e),
            st.current + 1, st.calls ++ [(st.current + 1, total)]⟩ := by
        unfold travelStep
        rw [if_neg hij]
      have h := ih (j + 1) (⟨dictInsert st.matrix (start, e)
        (resolveTime remote start e), st.current + 1,
        st.calls ++ [(st.current + 1, total)]⟩ : MatrixState)
      dsimp only at h
      show (colLoop remote total i start (j + 1) rest
          (travelStep remote total i start j e st)).current =
            st.current + offCount i j (e :: rest).length ∧
        (colLoop remote total i start (j + 1) rest
          (travelStep remote total i start j e st)).calls =
            st.calls ++ expCalls st.current total (offCount i j (e :: rest).length)
      rw [hstep, hoc]
      constructor
      · rw [h.1]
        omega
      · rw [h.2]
        have hexp : expCalls st.current total
            (1 + offCount i (j + 1) rest.length) =
            (st.current + 1, total) :: expCalls (st.current + 1) total
              (offCount i (j + 1) rest.length) := by
          rw [expCalls_append total 1 (offCount i (j + 1) rest.length) st.current]
          rfl
        rw [hexp, List.append_assoc, List.singleton_append]

/-- The outer loop over `rows` (each of row index `< cols.length`) advances the
counter by `rows.length * (cols.length - 1)` and appends the matching trace. -/
theorem rowLoop_progress (remote : String → String → Option Nat)
    (total : Nat) (cols : List String) :
    ∀ (rows : List String) (i : Nat) (st : MatrixState),
      i + rows.length ≤ cols.length →
      (rowLoop remote total cols i rows st).current =
          st.current + rows.length * (cols.length - 1) ∧
        (rowLoop remote total cols i rows st).calls =
          st.calls ++ expCalls st.current total
            (rows.length * (cols.length - 1)) := by
  intro rows
  induction rows with
  | nil =>
    intro i st _
    constructor
    · show st.current = st.current + 0 * (cols.length - 1)
      rw [Nat.zero_mul]
      rfl
    · show st.calls = st.calls ++ expCalls st.current total
        (0 * (cols.length - 1))
      rw [Nat.zero_mul]
      show st.calls = st.calls ++ []
      rw [List.append_nil]
  | cons s rest ih =>
    intro i st hlen
    have hi : i < cols.length := by
      rw [List.length_cons] at hlen
      omega
    have hcol := colLoop_progress remote total i s cols 0 st
    have hoc : offCount i 0 cols.length = cols.length - 1 :=
      offCount_in' i cols.length 0 (by omega) (by omega)
    rw [hoc] at hcol
    have hrest := ih (i + 1) (colLoop remote total i s 0 cols st)
      (by rw [List.length_cons] at hlen; omega)
    have hcount : (s :: rest).length * (cols.length - 1) =
        (cols.length - 1) + rest.length * (cols.length - 1) := by
      rw [List.length_cons, Nat.succ_mul]
      exact Nat.add_comm _ _
    show (rowLoop remote total cols (i + 1) rest
        (colLoop remote total i s 0 cols st)).current =
          st.current + (s :: rest).length * (cols.length - 1) ∧
      (rowLoop remote total cols (i + 1) rest
        (colLoop remote total i s 0 cols st)).calls =
          st.calls ++ expCalls st.current total
            ((s :: rest).length * (cols.length - 1))
    constructor
    · rw [hrest.1, hcol.1, hcount]
      omega
    · rw [hrest.2, hcol.2, hcol.1, hcount,
        expCalls_append total (cols.length - 1)
          (rest.length * (cols.length - 1)) st.current,
        List.append_assoc]

/-- Full progress characterisation of `get_travel_time_matrix`: for every input
list (duplicates allowed) the counter ends at `n * (n - 1)` and the callback is
invoked exactly `n * (n - 1)` times, the `k`-th time with `(k, n * (n - 1))`. -/
theorem get_travel_time_matrix_calls (remote : String → String → Option Nat)
    (addresses : List String) :
    (get_travel_time_matrix remote addresses).current =
        addresses.length * (addresses.length - 1) ∧
      (get_travel_time_matrix remote addresses).calls =
        (List.range (addresses.length * (addresses.length - 1))).map
          (fun k => (k + 1, addresses.length * (addresses.length - 1))) := by
  have h := rowLoop_progress remote (addresses.length * (addresses.length - 1))
    addresses addresses 0 ⟨[], 0, []⟩ (by omega)
  dsimp only at h
  constructor
  · show (rowLoop _ _ _ _ _ _).current = _
    rw [h.1, Nat.zero_add]
  · show (rowLoop _ _ _ _ _ _).calls = _
    rw [h.2, expCalls_eq_range, List.nil_append]
    have h1 : (fun k => ((0 : Nat) + k + 1,
        addresses.length * (addresses.length - 1))) =
        (fun k => (k + 1, addresses.length * (addresses.length - 1))) := by
      funext k
      rw [Nat.zero_add]
    rw [h1]

/-- The matrix written by one inner-loop iteration: key `(start, endAddr)` gets
`0` on the diagonal and the resolved time off it. -/
theorem travelStep_matrix (remote : String → String → Option Nat)
    (total i : Nat) (start : String) (j : Nat) (endAddr : String)
    (st : MatrixState) :
    (travelStep remote total i start j endAddr st).matrix =
      dictInsert st.matrix (start, endAddr)
        (if i = j then 0 else resolveTime remote start endAddr) := by
  unfold travelStep
  by_cases h : i = j
  · rw [if_pos h, if_pos h]
  · rw [if_neg h, if_neg h]

/-- Splitting the inner loop across an append of column segments. -/
theorem colLoop_append (remote : String → String → Option Nat)
    (total i : Nat) (start : String) :
    ∀ (c1 c2 : List String) (j : Nat) (st : MatrixState),
      colLoop remote total i start j (c1 ++ c2) st =
        colLoop remote total i start (j + c1.length) c2
          (colLoop remote total i start j c1 st) := by
  intro c1
  induction c1 with
  | nil =>
    intro c2 j st
    rfl
  | cons e t ih =>
    intro c2 j st
    show colLoop remote total i start (j + 1) (t ++ c2)
        (travelStep remote total i start j e st) = _
    rw [ih c2 (j + 1) (travelStep remote total i start j e st)]
    have h1 : j + 1 + t.length = j + (e :: t).length := by
      rw [List.length_cons]
      omega
    rw [h1]
    rfl

/-- The inner loop of row `start` only writes keys whose first component is
`start` and whose second component is in `cols`: every other lookup is
unchanged. -/
theorem colLoop_preserve (remote : String → String → Option Nat)
    (total i : Nat) (start : String) :
    ∀ (cols : List String) (j : Nat) (st : MatrixState) (a b : String),
      (a ≠ start ∨ ¬ b ∈ cols) →
      dictLookup (colLoop remote total i start j cols st).matrix (a, b) =
        dictLookup st.matrix (a, b) := by
  intro cols
  induction cols with
  | nil =>
    intro j st a b _
    rfl
  | cons e rest ih =>
    intro j st a b h
    have hne : ((a, b) : String × String) ≠ (start, e) := by
      intro hab
      cases h with
      | inl h1 => exact h1 (congrArg Prod.fst hab)
      | inr h2 =>
        have hb : b = e := congrArg Prod.snd hab
        exact h2 (hb ▸ List.mem_cons_self e rest)
    have h' : a ≠ start ∨ ¬ b ∈ rest := by
      cases h with
      | inl h1 => exact Or.inl h1
      | inr h2 => exact Or.inr (fun hr => h2 (List.mem_cons_of_mem e hr))
    show dictLookup (colLoop remote total i start (j + 1) rest
        (travelStep remote total i start j e st)).matrix (a, b) = _
    rw [ih (j + 1) (travelStep remote total i start j e st) a b h',
      travelStep_matrix, dictLookup_dictInsert_ne _ _ _ _ hne]

/-- The outer loop over `rows` only writes keys whose first component is one of
the row strings: every other lookup is unchanged. -/
theorem rowLoop_preserve (remote : String → String → Option Nat)
    (total : Nat) (cols : List String) :
    ∀ (rows : List String) (i : Nat) (st : MatrixState) (a b : String),
      ¬ a ∈ rows →
      dictLookup (rowLoop remote total cols i rows st).matrix (a, b) =
        dictLookup st.matrix (a, b) := by
  intro rows
  induction rows with
  | nil =>
    intro i st a b _
    rfl
  | cons s rest ih =>
    intro i st a b h
    have hs : a ≠ s := fun hh => h (hh ▸ List.mem_cons_self s rest)
    have hrest : ¬ a ∈ rest := fun hh => h (List.mem_cons_of_mem s hh)
    show dictLookup (rowLoop remote total cols (i + 1) rest
        (colLoop remote total i s 0 cols st)).matrix (a, b) = _
    rw [ih (i + 1) (colLoop remote total i s 0 cols st) a b hrest,
      colLoop_preserve remote total i s cols 0 st a b (Or.inl hs)]

/-- On the suffix of the address list starting at row index `i`, every address
still to be processed ends up with diagonal entry `0`: the last write to key
`(A, A)` is the diagonal write of `A`'s last occurrence. -/
theorem rowLoop_diag_zero (remote : String → String → Option Nat)
    (total : Nat) (cols : List String) (A : String) :
    ∀ (rows : List String) (i : Nat) (st : MatrixState),
      rows = cols.drop i → A ∈ rows →
      dictLookup (rowLoop remote total cols i rows st).matrix (A, A) =
        some 0 := by
  intro rows
  induction rows with
  | nil =>
    intro i st _ hA
    exact absurd hA (List.not_mem_nil A)
  | cons s rest ih =>
    intro i st hrows hA
    have hdrop : rest = cols.drop (i + 1) := by
      have h1 : (cols.drop i).tail = cols.drop (i + 1) := List.tail_drop cols i
      rw [← hrows] at h1
      exact h1.symm ▸ rfl
    by_cases hA' : A ∈ rest
    · show dictLookup (rowLoop remote total cols (i + 1) rest
        (colLoop remote total i s 0 cols st)).matrix (A, A) = some 0
      exact ih (i + 1) (colLoop remote total i s 0 cols st) hdrop hA'
    · have hAs : A = s := by
        cases List.mem_cons.mp hA with
        | inl h => exact h
        | inr h => exact absurd h hA'
      subst hAs
      have hi : i < cols.length := by
        have hlen := congrArg List.length hrows
        rw [List.length_cons, List.length_drop] at hlen
        omega
      have hsplit : cols = cols.take i ++ (A :: rest) := by
        rw [hrows]
        exact (List.take_append_drop i cols).symm
      have htake : (cols.take i).length = i := by
        rw [List.length_take]
        omega
      have hcl : colLoop remote total i A 0 cols st =
          colLoop remote total i A i (A :: rest)
            (colLoop remote total i A 0 (cols.take i) st) := by
        conv_lhs => rw [hsplit]
        rw [colLoop_append remote total i A (cols.take i) (A :: rest) 0 st,
          htake, Nat.zero_add]
      show dictLookup (rowLoop remote total cols (i + 1) rest
        (colLoop remote total i A 0 cols st)).matrix (A, A) = some 0
      rw [rowLoop_preserve remote total cols rest (i + 1)
        (colLoop remote total i A 0 cols st) A A hA', hcl]
      show dictLookup (colLoop remote total i A (i + 1) rest
        (travelStep remote total i A i A
          (colLoop remote total i A 0 (cols.take i) st))).matrix (A, A) = some 0
      rw [colLoop_preserve remote total i A rest (i + 1)
        (travelStep remote total i A i A
          (colLoop remote total i A 0 (cols.take i) st)) A A (Or.inr hA'),
        travelStep_matrix, if_pos rfl, dictLookup_dictInsert_self]

/-- The diagonal entry of every address in the input list is `0`, with no
deduplication hypothesis. -/
theorem get_travel_time_matrix_diag (remote : String → String → Option Nat)
    (addresses : List String) (A : String) (hA : A ∈ addresses) :
    dictLookup (get_travel_time_matrix remote addresses).matrix (A, A) =
      some 0 := by
  exact rowLoop_diag_zero remote (addresses.length * (addresses.length - 1))
    addresses A addresses 0 ⟨[], 0, []⟩ (List.drop_zero addresses).symm hA

/-- If no entry has key `k`, the `any` test of `dictInsert` is false. -/
theorem any_key_eq_false (m : List ((String × String) × Nat))
    (k : String × String) (h : ¬ k ∈ m.map Prod.fst) :
    m.any (fun e => decide (e.1 = k)) = false := by
  induction m with
  | nil => rfl
  | cons e t ih =>
    rw [List.map_cons] at h
    have h1 : ¬ e.1 = k := fun hh =>
      h (hh ▸ List.mem_cons_self e.1 (t.map Prod.fst))
    have h2 : ¬ k ∈ t.map Prod.fst := fun hh =>
      h (List.mem_cons_of_mem e.1 hh)
    rw [List.any_cons, decide_eq_false h1, Bool.false_or, ih h2]

/-- Inserting a fresh key appends its entry. -/
theorem dictInsert_fresh (m : List ((String × String) × Nat))
    (k : String × String) (v : Nat) (h : ¬ k ∈ m.map Prod.fst) :
    dictInsert m k v = m ++ [(k, v)] := by
  unfold dictInsert
  rw [any_key_eq_false m k h]
  rfl

/-- The entries row `i` (string `start`) appends while scanning the column
segment `cols` whose head has column index `j`. -/
def colEntries (remote : String → String → Option Nat) (i j : Nat)
    (start : String) : List String → List ((String × String) × Nat)
  | [] => []
  | e :: rest =>
      ((start, e), if i = j then 0 else resolveTime remote start e) ::
        colEntries remote i (j + 1) start rest

/-- The entries appended by the rows of `rows`, the head having row index `i`,
each row scanning all of `cols`. -/
def rowEntries (remote : String → String → Option Nat) (cols : List String) :
    Nat → List String → List ((String × String) × Nat)
  | _, [] => []
  | i, s :: rest =>
      colEntries remote i 0 s cols ++ rowEntries remote cols (i + 1) rest

theorem colEntries_keys (remote : String → String → Option Nat) (i : Nat)
    (start : String) :
    ∀ (cols : List String) (j : Nat),
      (colEntries remote i j start cols).map Prod.fst =
        cols.map (fun e => (start, e)) := by
  intro cols
  induction cols with
  | nil => intro j; rfl
  | cons e rest ih =>
    intro j
    show ((start, e) :: _ : List (String × String)) = _
    rw [ih (j + 1)]
    rfl

theorem colEntries_length (remote : String → String → Option Nat) (i : Nat)
    (start : String) :
    ∀ (cols : List String) (j : Nat),
      (colEntries remote i j start cols).length = cols.length := by
  intro cols
  induction cols with
  | nil => intro j; rfl
  | cons e rest ih =>
    intro j
    show (colEntries remote i (j + 1) start rest).length + 1 = rest.length + 1
    rw [ih (j + 1)]

theorem rowEntries_keys (remote : String → String → Option Nat)
    (cols : List String) :
    ∀ (rows : List String) (i : Nat),
      (rowEntries remote cols i rows).map Prod.fst =
        rows.flatMap (fun s => cols.map (fun e => (s, e))) := by
  intro rows
  induction rows with
  | nil => intro i; rfl
  | cons s rest ih =>
    intro i
    show (colEntries remote i 0 s cols ++ rowEntries remote cols (i + 1) rest).map
        Prod.fst = _
    rw [List.map_append, colEntries_keys, ih (i + 1), List.flatMap_cons]

theorem rowEntries_length (remote : String → String → Option Nat)
    (cols : List String) :
    ∀ (rows : List String) (i : Nat),
      (rowEntries remote cols i rows).length = rows.length * cols.length := by
  intro rows
  induction rows with
  | nil =>
    intro i
    show (0 : Nat) = 0 * cols.length
    rw [Nat.zero_mul]
  | cons s rest ih =>
    intro i
    show (colEntries remote i 0 s cols ++ rowEntries remote cols (i + 1) rest).length = _
    rw [List.length_append, colEntries_length, ih (i + 1), List.length_cons,
      Nat.succ_mul]
    exact Nat.add_comm _ _

/-- With pairwise-fresh keys, the inner loop appends exactly its row entries. -/
theorem colLoop_matrix_fresh (remote : String → String → Option Nat)
    (total i : Nat) (start : String) :
    ∀ (cols : List String) (j : Nat) (st : MatrixState),
      cols.Nodup →
      (∀ e ∈ cols, ¬ ((start, e) ∈ st.matrix.map Prod.fst)) →
      (colLoop remote total i start j cols st).matrix =
        st.matrix ++ colEntries remote i j start cols := by
  intro cols
  induction cols with
  | nil =>
    intro j st _ _
    show st.matrix = st.matrix ++ []
    rw [List.append_nil]
  | cons e rest ih =>
    intro j st hnd hfresh
    have hnd' := List.nodup_cons.mp hnd
    have hstep : (travelStep remote total i start j e st).matrix =
        st.matrix ++ [((start, e), if i = j then 0 else
          resolveTime remote start e)] := by
      rw [travelStep_matrix,
        dictInsert_fresh st.matrix (start, e) _
          (hfresh e (List.mem_cons_self e rest))]
    have hfresh' : ∀ e' ∈ rest,
        ¬ ((start, e') ∈ (travelStep remote total i start j e st).matrix.map
          Prod.fst) := by
      intro e' he' hmem
      rw [hstep, List.map_append, List.map_singleton] at hmem
      cases List.mem_append.mp hmem with
      | inl h => exact hfresh e' (List.mem_cons_of_mem e he') h
      | inr h =>
        have : ((start, e') : String × String) = (start, e) :=
          List.mem_singleton.mp h
        have : e' = e := congrArg Prod.snd this
        exact hnd'.1 (this ▸ he')
    show (colLoop remote total i start (j + 1) rest
      (travelStep remote total i start j e st)).matrix = _
    rw [ih (j + 1) (travelStep remote total i start j e st) hnd'.2 hfresh',
      hstep, List.append_assoc, List.singleton_append]
    rfl

/-- With pairwise-distinct rows and columns and a state containing no key of
any upcoming row, the outer loop appends exactly the row-major entries. -/
theorem rowLoop_matrix_fresh (remote : String → String → Option Nat)
    (total : Nat) (cols : List String) (hcols : cols.Nodup) :
    ∀ (rows : List String) (i : Nat) (st : MatrixState),
      rows.Nodup →
      (∀ s ∈ rows, ∀ b : String, ¬ ((s, b) ∈ st.matrix.map Prod.fst)) →
      (rowLoop remote total cols i rows st).matrix =
        st.matrix ++ rowEntries remote cols i rows := by
  intro rows
  induction rows with
  | nil =>
    intro i st _ _
    show st.matrix = st.matrix ++ []
    rw [List.append_nil]
  | cons s rest ih =>
    intro i st hnd hfresh
    have hnd' := List.nodup_cons.mp hnd
    have hcol : (colLoop remote total i s 0 cols st).matrix =
        st.matrix ++ colEntries remote i 0 s cols :=
      colLoop_matrix_fresh remote total i s cols 0 st hcols
        (fun e _ => hfresh s (List.mem_cons_self s rest) e)
    have hfresh' : ∀ s' ∈ rest, ∀ b : String,
        ¬ ((s', b) ∈ (colLoop remote total i s 0 cols st).matrix.map
          Prod.fst) := by
      intro s' hs' b hmem
      rw [hcol, List.map_append, colEntries_keys] at hmem
      cases List.mem_append.mp hmem with
      | inl h => exact hfresh s' (List.mem_cons_of_mem s hs') b h
      | inr h =>
        have hex := List.mem_map.mp h
        obtain ⟨e, _, heq⟩ := hex
        have : s = s' := congrArg Prod.fst heq
        exact hnd'.1 (this ▸ hs')
    show (rowLoop remote total cols (i + 1) rest
      (colLoop remote total i s 0 cols st)).matrix = _
    rw [ih (i + 1) (colLoop remote total i s 0 cols st) hnd'.2 hfresh', hcol,
      List.append_assoc]
    rfl

/-- For a deduplicated input the final matrix is exactly the row-major list of
entries, one per ordered pair of input addresses. -/
theorem get_travel_time_matrix_matrix (remote : String → String → Option Nat)
    (addresses : List String) (h : addresses.Nodup) :
    (get_travel_time_matrix remote addresses).matrix =
      rowEntries remote addresses 0 addresses := by
  have hrow := rowLoop_matrix_fresh remote
    (addresses.length * (addresses.length - 1)) addresses h addresses 0
    ⟨[], 0, []⟩ h (fun s _ b hmem => by exact absurd hmem (List.not_mem_nil _))
  show (rowLoop _ _ _ _ _ _).matrix = _
  rw [hrow]
  rfl

/-- The row-major pair list is duplicate-free when the address list is. -/
theorem pairs_bind_nodup (l1 l2 : List String) (h1 : l1.Nodup)
    (h2 : l2.Nodup) :
    (l1.flatMap (fun s => l2.map (fun e => (s, e)))).Nodup := by
  induction l1 with
  | nil => exact List.nodup_nil
  | cons s rest ih =>
    rw [List.flatMap_cons]
    have hnd' := List.nodup_cons.mp h1
    refine List.Nodup.append ?_ (ih hnd'.2) ?_
    · exact h2.map (fun a b hab => congrArg Prod.snd hab)
    · intro x hx1 hx2
      have hex1 := List.mem_map.mp hx1
      obtain ⟨e, _, heq1⟩ := hex1
      have hex2 := List.mem_flatMap.mp hx2
      obtain ⟨s', hs', hx2'⟩ := hex2
      have hex3 := List.mem_map.mp hx2'
      obtain ⟨e', _, heq2⟩ := hex3
      have : s = s' := by
        have ha : x.1 = s := by rw [← heq1]
        have hb : x.1 = s' := by rw [← heq2]
        rw [← ha, hb]
      exact hnd'.1 (this ▸ hs')

/-- Every ordered pair of input addresses occurs in the row-major pair list. -/
theorem pairs_bind_mem (l1 l2 : List String) (a b : String) (ha : a ∈ l1)
    (hb : b ∈ l2) :
    ((a, b) : String × String) ∈ l1.flatMap (fun s => l2.map (fun e => (s, e))) :=
  List.mem_flatMap.mpr ⟨a, ha, List.mem_map_of_mem _ hb⟩

/-- Claim C1 counterexample: the fallback estimator is NOT the first-match
reference function.  On the address pair ("강남구 서초구", "강남구") the
first-match rule of the claim yields the same district twice, hence 25, while
the source's loop keeps the LAST match ("서초구" for the first address) and
returns 45. -/
theorem claim_C1_counterexample :
    _estimate_travel_time "강남구 서초구" "강남구" = 45 ∧
      estimateMinutesSpecFirst "강남구 서초구" "강남구" = 25 ∧
      ¬ _estimate_travel_time "강남구 서초구" "강남구" =
        estimateMinutesSpecFirst "강남구 서초구" "강남구" := by
  refine ⟨by decide, by decide, by decide⟩

/-- Claim C1 (amended): `_estimate_travel_time` is the total deterministic
function of its two address strings that resolves each address to the LAST
administrative-district label, in the fixed list order, occurring as a
substring; if both addresses resolve to the same non-empty label it returns
25, otherwise 45 (including when either address matches no label). -/
theorem claim_C1 (start endAddr : String) :
    _estimate_travel_time start endAddr = estimateMinutesLast start endAddr := by
  unfold _estimate_travel_time estimateMinutesLast
  rw [foldl_overwrite_none, foldl_overwrite_none]

/-- Claim C2 counterexample: a `Reservation` with end instant equal to the
start instant and with capacity bounds min = 5 > optimal = 3 > max = 2 is
accepted by the constructor (all three capacities are positive, which is the
only capacity check the model performs). -/
theorem claim_C2_counterexample :
    constructionOk (mkReservation "방" 100 100 "서울 강남구" "공포" 5 3 2) =
        true ∧
      (100 : Int) ≤ 100 ∧ (3 : Int) < 5 ∧ (2 : Int) < 3 := by
  refine ⟨by decide, by decide, by decide, by decide⟩

/-- Claim C2 (amended): `Reservation` construction succeeds iff all three
capacities are strictly positive — this positivity is the only constructor-time
validation; `end_time > start_time` and `min ≤ optimal ≤ max` are NOT checked
at construction.  Every successfully constructed `Reservation` has its three
capacities strictly positive. -/
theorem claim_C2 (room_name : String) (start_time end_time : Int)
    (address theme : String) (minc optc maxc : Int) :
    (constructionOk (mkReservation room_name start_time end_time address theme
        minc optc maxc) = true ↔ 0 < minc ∧ 0 < optc ∧ 0 < maxc) ∧
    (∀ r : Reservation,
      mkReservation room_name start_time end_time address theme minc optc maxc =
        Except.ok r →
      0 < r.min_capacity ∧ 0 < r.optimal_capacity ∧ 0 < r.max_capacity) := by
  constructor
  · unfold mkReservation constructionOk
    split_ifs with h1 h2 h3
    · simp only [Bool.false_eq_true, false_iff]
      omega
    · simp only [Bool.false_eq_true, false_iff]
      omega
    · simp only [Bool.false_eq_true, false_iff]
      omega
    · simp only [true_iff]
      omega
  · intro r hr
    unfold mkReservation at hr
    split_ifs at hr with h1 h2 h3 <;>
      first
        | exact Except.noConfusion hr
        | (injection hr with hr'
           rw [← hr']
           dsimp only
           omega)

/-- Witness for claim C2's amended theorem at a concrete construction. -/
theorem claim_C2_witness :
    0 < demoReservation.min_capacity ∧ 0 < demoReservation.optimal_capacity ∧
      0 < demoReservation.max_capacity :=
  (claim_C2 "미스터리 하우스" 0 7200 addr1 "추리" 2 4 5).2 demoReservation rfl

/-- Claim C3 counterexample: building a `TeamAssignment` with the `members`
field absent does not succeed with an empty member set — `members` is a
required field and its absence is a construction-time validation error. -/
theorem claim_C3_counterexample :
    constructionOk (mkTeamAssignment 1 demoReservation none (some 5)) =
      false := by
  decide

/-- Claim C3 (amended): a `TeamAssignment` built with
travel-time-from-previous absent gets the default 0 and a `Schedule` built
with notes absent gets empty notes, but a `TeamAssignment` built with the
members field absent is rejected (members is required, not defaulted). -/
theorem claim_C3 (team_id : Int) (r : Reservation) (ms : List User)
    (t : Option Int) (scenario_id : Int)
    (tm : List (Int × List TeamAssignment)) (sc : List (String × Rat)) :
    mkTeamAssignment team_id r (some ms) none =
        Except.ok ⟨team_id, r, ms, 0⟩ ∧
      constructionOk (mkTeamAssignment team_id r none t) = false ∧
      mkSchedule scenario_id (some tm) (some sc) none =
        Except.ok ⟨scenario_id, tm, sc, ""⟩ :=
  ⟨rfl, rfl, rfl⟩

/-- Claim C7: the capacity predicate is exactly the interval test, with a ±1
widening in flexible mode; for min ≥ 2 the flexible band has the stated
endpoints. -/
theorem claim_C7 (r : Reservation) (m : Int) :
    (is_capacity_valid r m true = true ↔
      r.min_capacity - 1 ≤ m ∧ m ≤ r.max_capacity + 1) ∧
    (is_capacity_valid r m false = true ↔
      r.min_capacity ≤ m ∧ m ≤ r.max_capacity) ∧
    (2 ≤ r.min_capacity →
      (∀ m' : Int, r.min_capacity - 1 ≤ m' → m' ≤ r.max_capacity + 1 →
        is_capacity_valid r m' true = true) ∧
      is_capacity_valid r (r.min_capacity - 2) true = false ∧
      is_capacity_valid r (r.max_capacity + 2) true = false) := by
  refine ⟨?_, ?_, ?_⟩
  · simp [is_capacity_valid]
  · simp [is_capacity_valid]
  · intro hmin
    refine ⟨?_, ?_, ?_⟩
    · intro m' h1 h2
      have hrw : is_capacity_valid r m' true =
          decide (r.min_capacity - 1 ≤ m' ∧ m' ≤ r.max_capacity + 1) := rfl
      rw [hrw, decide_eq_true_eq]
      exact ⟨h1, h2⟩
    · have hrw : is_capacity_valid r (r.min_capacity - 2) true =
          decide (r.min_capacity - 1 ≤ r.min_capacity - 2 ∧
            r.min_capacity - 2 ≤ r.max_capacity + 1) := rfl
      rw [hrw, decide_eq_false_iff_not]
      omega
    · have hrw : is_capacity_valid r (r.max_capacity + 2) true =
          decide (r.min_capacity - 1 ≤ r.max_capacity + 2 ∧
            r.max_capacity + 2 ≤ r.max_capacity + 1) := rfl
      rw [hrw, decide_eq_false_iff_not]
      omega

/-- Witness for claim C7 at the concrete demo reservation (min 2, max 5). -/
theorem claim_C7_witness :
    is_capacity_valid demoReservation 3 true = true ∧
      is_capacity_valid demoReservation (demoReservation.min_capacity - 2)
        true = false ∧
      is_capacity_valid demoReservation (demoReservation.max_capacity + 2)
        true = false := by
  have h := (claim_C7 demoReservation 3).2.2 (by decide)
  exact ⟨(claim_C7 demoReservation 3).1.mpr (by decide), h.2.1, h.2.2⟩

/-- Claim C8: travel feasibility is exactly `gap-in-minutes ≥ travelMinutes`,
negative gaps are infeasible by the same inequality, and the three boundary
probes behave as stated. -/
theorem claim_C8 (prev_reservation next_reservation : Reservation) (t : Int) :
    (is_travel_time_feasible prev_reservation next_reservation t = true ↔
      ((next_reservation.start_time - prev_reservation.end_time : Int) : Rat) /
          60 ≥ (t : Rat)) ∧
    (0 ≤ t →
      next_reservation.start_time < prev_reservation.end_time →
      is_travel_time_feasible prev_reservation next_reservation t = false) ∧
    (next_reservation.start_time = prev_reservation.end_time + 15 * 60 →
      is_travel_time_feasible prev_reservation next_reservation 15 = true) ∧
    (next_reservation.start_time = prev_reservation.end_time + 14 * 60 →
      is_travel_time_feasible prev_reservation next_reservation 15 = false) ∧
    (next_reservation.start_time = prev_reservation.end_time →
      is_travel_time_feasible prev_reservation next_reservation 15 = false) := by
  refine ⟨?_, ?_, ?_, ?_, ?_⟩
  · simp [is_travel_time_feasible]
  · intro ht hlt
    simp only [is_travel_time_feasible, decide_eq_false_iff_not]
    intro hge
    have hd : ((next_reservation.start_time - prev_reservation.end_time : Int) :
        Rat) < 0 := by
      have hdi : (next_reservation.start_time - prev_reservation.end_time :
          Int) < 0 := by omega
      exact_mod_cast hdi
    have hdiv : ((next_reservation.start_time - prev_reservation.end_time :
        Int) : Rat) / 60 < 0 :=
      div_neg_of_neg_of_pos hd (by norm_num)
    have ht' : (0 : Rat) ≤ (t : Rat) := by exact_mod_cast ht
    linarith
  · intro heq
    simp only [is_travel_time_feasible, decide_eq_true_eq]
    have hd : (next_reservation.start_time - prev_reservation.end_time : Int) =
        900 := by omega
    rw [hd]
    norm_num
  · intro heq
    simp only [is_travel_time_feasible, decide_eq_false_iff_not]
    have hd : (next_reservation.start_time - prev_reservation.end_time : Int) =
        840 := by omega
    rw [hd]
    norm_num
  · intro heq
    simp only [is_travel_time_feasible, decide_eq_false_iff_not]
    have hd : (next_reservation.start_time - prev_reservation.end_time : Int) =
        0 := by omega
    rw [hd]
    norm_num

/-- A second reservation starting exactly 15 minutes after the first ends. -/
def demoReservation2 : Reservation :=
  ⟨"공포의 지하실", 8100, 15300, addr2, "공포", 2, 3, 4⟩

/-- Witness for claim C8 at concrete reservations 15 minutes apart. -/
theorem claim_C8_witness :
    is_travel_time_feasible demoReservation demoReservation2 15 = true :=
  (claim_C8 demoReservation demoReservation2 15).2.2.1 (by decide)

/-- Claim C4: for deduplicated inputs and any remote behaviour the matrix is
complete — exactly one (non-negative) entry per ordered pair, `n * n` entries
in all — and the callback trace is exactly
`(1, n*(n-1)), …, (n*(n-1), n*(n-1))`; moreover the spec's concrete
two-address scenario with an unreachable remote yields off-diagonal entries 45,
diagonal entries 0, and exactly two callback invocations with total 2. -/
theorem claim_C4 :
    (∀ (remote : String → String → Option Nat) (addresses : List String),
      addresses.Nodup →
      (get_travel_time_matrix remote addresses).matrix.length =
          addresses.length * addresses.length ∧
        ((get_travel_time_matrix remote addresses).matrix.map Prod.fst).Nodup ∧
        (∀ a ∈ addresses, ∀ b ∈ addresses,
          ((a, b) : String × String) ∈
            (get_travel_time_matrix remote addresses).matrix.map Prod.fst) ∧
        (∀ e ∈ (get_travel_time_matrix remote addresses).matrix, 0 ≤ e.2) ∧
        (get_travel_time_matrix remote addresses).calls =
          (List.range (addresses.length * (addresses.length - 1))).map
            (fun k => (k + 1, addresses.length * (addresses.length - 1)))) ∧
    (dictLookup (get_travel_time_matrix failRemote [addr1, addr2]).matrix
        (addr1, addr2) = some 45 ∧
      dictLookup (get_travel_time_matrix failRemote [addr1, addr2]).matrix
        (addr2, addr1) = some 45 ∧
      dictLookup (get_travel_time_matrix failRemote [addr1, addr2]).matrix
        (addr1, addr1) = some 0 ∧
      dictLookup (get_travel_time_matrix failRemote [addr1, addr2]).matrix
        (addr2, addr2) = some 0 ∧
      (get_travel_time_matrix failRemote [addr1, addr2]).calls =
        [(1, 2), (2, 2)]) := by
  constructor
  · intro remote addresses hnd
    have hm := get_travel_time_matrix_matrix remote addresses hnd
    refine ⟨?_, ?_, ?_, ?_, ?_⟩
    · rw [hm, rowEntries_length]
    · rw [hm, rowEntries_keys]
      exact pairs_bind_nodup addresses addresses hnd hnd
    · intro a ha b hb
      rw [hm, rowEntries_keys]
      exact pairs_bind_mem addresses addresses a b ha hb
    · intro e _
      exact Nat.zero_le e.2
    · exact (get_travel_time_matrix_calls remote addresses).2
  · refine ⟨by decide, by decide, by decide, by decide, by decide⟩

/-- Witness for claim C4 at the spec's concrete scenario. -/
theorem claim_C4_witness :
    (get_travel_time_matrix failRemote [addr1, addr2]).matrix.length =
        2 * 2 ∧
      (get_travel_time_matrix failRemote [addr1, addr2]).calls =
        (List.range (2 * (2 - 1))).map (fun k => (k + 1, 2 * (2 - 1))) := by
  have h := claim_C4.1 failRemote [addr1, addr2] (by decide)
  exact ⟨h.1, h.2.2.2.2⟩

/-- Claim C5: the diagonal entry of every address in a deduplicated input is
0, whatever the remote dependency does. -/
theorem claim_C5 (remote : String → String → Option Nat)
    (addresses : List String) (hdist : addresses.Nodup) (A : String)
    (hA : A ∈ addresses) :
    dictLookup (get_travel_time_matrix remote addresses).matrix (A, A) =
      some 0 :=
  get_travel_time_matrix_diag remote addresses A hA

/-- Witness for claim C5 at the concrete two-address input. -/
theorem claim_C5_witness :
    dictLookup (get_travel_time_matrix failRemote [addr1, addr2]).matrix
      (addr1, addr1) = some 0 :=
  claim_C5 failRemote [addr1, addr2] (by decide) addr1 (by decide)

/-- Claim C9 counterexample: with the duplicated input `[addr1, addr1]` and a
failing remote, the entry for `(addr1, addr1)` is 0 — not the fallback
estimate 25 the claim asserts — because the final write to that key is the
diagonal write of the duplicate's last occurrence; the two off-diagonal index
pairs do run the fallback and are counted by the progress callback. -/
theorem claim_C9_counterexample :
    dictLookup (get_travel_time_matrix failRemote [addr1, addr1]).matrix
        (addr1, addr1) = some 0 ∧
      ¬ dictLookup (get_travel_time_matrix failRemote [addr1, addr1]).matrix
          (addr1, addr1) = some 25 ∧
      (get_travel_time_matrix failRemote [addr1, addr1]).calls =
        [(1, 2), (2, 2)] := by
  refine ⟨by decide, by decide, by decide⟩

/-- Claim C9 (amended): duplicate positions do go through the remote/fallback
path and count toward progress and the reported total (the callback trace
always has `n*(n-1)` entries, counting index pairs rather than distinct
address pairs), but the returned entry for `(A, A)` is nevertheless 0 for
every `A` in the input — the last value written to that key comes from the
diagonal index pair of `A`'s last occurrence — so the diagonal-zero invariant
holds even without deduplication. -/
theorem claim_C9 (remote : String → String → Option Nat)
    (addresses : List String) :
    (get_travel_time_matrix remote addresses).calls =
        (List.range (addresses.length * (addresses.length - 1))).map
          (fun k => (k + 1, addresses.length * (addresses.length - 1))) ∧
      (∀ A ∈ addresses,
        dictLookup (get_travel_time_matrix remote addresses).matrix (A, A) =
          some 0) :=
  ⟨(get_travel_time_matrix_calls remote addresses).2,
    fun A hA => get_travel_time_matrix_diag remote addresses A hA⟩

/-- Witness for claim C9's amended theorem at the duplicated input. -/
theorem claim_C9_witness :
    dictLookup (get_travel_time_matrix failRemote [addr2, addr2]).matrix
      (addr2, addr2) = some 0 :=
  (claim_C9 failRemote [addr2, addr2]).2 addr2 (by decide)

/-- The population variance of any count list is non-negative. -/
theorem popVariance_nonneg (l : List Rat) : 0 ≤ popVariance l := by
  unfold popVariance
  apply div_nonneg
  · apply List.sum_nonneg
    intro x hx
    obtain ⟨c, _, rfl⟩ := List.mem_map.mp hx
    exact sq_nonneg _
  · exact Nat.cast_nonneg _

/-- The balance score of an empty-teams schedule is 0. -/
theorem score_nil (s : Schedule) (h : s.teams = []) :
    calculate_balance_score s = 0 := by
  simp [calculate_balance_score, h]

/-- The balance score of a nonempty-teams schedule, written through the
claim's reference population mean and variance. -/
theorem score_cons (s : Schedule) (t : Int × List TeamAssignment)
    (ts : List (Int × List TeamAssignment)) (hts : s.teams = t :: ts) :
    calculate_balance_score s =
      if popMean (teamCountsQ s) = 0 then 1
      else max 0 (1 - popVariance (teamCountsQ s) /
        popMean (teamCountsQ s) ^ 2) := by
  unfold calculate_balance_score popVariance teamCountsQ
  rw [hts]
  simp only [popMean, List.map_cons, List.isEmpty_cons, Bool.false_eq_true,
    if_false]

/-- Claim C6: the balance score is 0 for empty teams, 1 for zero mean,
`max 0 (1 - V/M^2)` otherwise, always lies in `[0, 1]`, and takes the stated
values on the concrete count profiles 2,2,2 and 4,0. -/
theorem claim_C6 :
    (∀ s : Schedule,
      (s.teams = [] → calculate_balance_score s = 0) ∧
      (s.teams ≠ [] → popMean (teamCountsQ s) = 0 →
        calculate_balance_score s = 1) ∧
      (s.teams ≠ [] → popMean (teamCountsQ s) ≠ 0 →
        calculate_balance_score s =
          max 0 (1 - popVariance (teamCountsQ s) /
            popMean (teamCountsQ s) ^ 2)) ∧
      0 ≤ calculate_balance_score s ∧ calculate_balance_score s ≤ 1) ∧
    calculate_balance_score sched222 = 1 ∧
    calculate_balance_score sched40 = 0 := by
  constructor
  · intro s
    cases hts : s.teams with
    | nil =>
      have h0 := score_nil s hts
      refine ⟨fun _ => h0, fun hne => absurd rfl hne, fun hne => absurd rfl hne,
        ?_, ?_⟩
      · rw [h0]
      · rw [h0]
        norm_num
    | cons t ts =>
      have hs := score_cons s t ts hts
      refine ⟨fun he => absurd he (List.cons_ne_nil t ts), ?_, ?_, ?_⟩
      · intro _ h0
        rw [hs, if_pos h0]
      · intro _ h0
        rw [hs, if_neg h0]
      · rw [hs]
        by_cases h0 : popMean (teamCountsQ s) = 0
        · rw [if_pos h0]
          norm_num
        · rw [if_neg h0]
          have hvar : 0 ≤ popVariance (teamCountsQ s) := popVariance_nonneg _
          have hnv : 0 ≤ popVariance (teamCountsQ s) /
              popMean (teamCountsQ s) ^ 2 :=
            div_nonneg hvar (sq_nonneg _)
          constructor
          · exact le_max_left 0 _
          · apply max_le (by norm_num)
            linarith
  · constructor
    · simp [calculate_balance_score, teamCountsQ, sched222]
      norm_num
    · simp [calculate_balance_score, teamCountsQ, sched40]
      norm_num

/-- Witness for claim C6's conditional clauses at the concrete schedule with
counts 4 and 0. -/
theorem claim_C6_witness :
    sched40.teams ≠ [] ∧ popMean (teamCountsQ sched40) ≠ 0 ∧
      calculate_balance_score sched40 =
        max 0 (1 - popVariance (teamCountsQ sched40) /
          popMean (teamCountsQ sched40) ^ 2) := by
  have hne : sched40.teams ≠ [] := by simp [sched40]
  have hm : popMean (teamCountsQ sched40) ≠ 0 := by
    norm_num [popMean, teamCountsQ, sched40]
  exact ⟨hne, hm, (claim_C6.1 sched40).2.2.1 hne hm⟩

/-- The per-team assignment counts of a schedule, as naturals (the multiset
claim C10 quantifies over). -/
def teamCountsNat (s : Schedule) : List Nat :=
  s.teams.map (fun t => t.2.length)

theorem teamCountsQ_eq_map (s : Schedule) :
    teamCountsQ s = (teamCountsNat s).map (fun n : Nat => (n : Rat)) := by
  unfold teamCountsQ teamCountsNat
  rw [List.map_map]
  rfl

/-- The balance score as a function of the rational count list alone. -/
def scoreOfCounts (counts : List Rat) : Rat :=
  if counts.isEmpty then 0
  else
    let mean := counts.sum / (counts.length : Rat)
    let variance := (counts.map (fun c => (c - mean) ^ 2)).sum /
      (counts.length : Rat)
    if mean = 0 then 1 else max 0 (1 - variance / mean ^ 2)

theorem calculate_balance_score_counts (s : Schedule) :
    calculate_balance_score s = scoreOfCounts (teamCountsQ s) := by
  cases hts : s.teams with
  | nil => simp [calculate_balance_score, scoreOfCounts, teamCountsQ, hts]
  | cons t ts =>
    simp [calculate_balance_score, scoreOfCounts, teamCountsQ, hts]

/-- The count-list score is invariant under permutation of the counts. -/
theorem scoreOfCounts_perm (c1 c2 : List Rat) (h : c1.Perm c2) :
    scoreOfCounts c1 = scoreOfCounts c2 := by
  by_cases h1 : c1 = []
  · subst h1
    rw [h.symm.eq_nil]
  · have h2 : c2 ≠ [] := by
      intro hc
      subst hc
      exact h1 h.eq_nil
    obtain ⟨x, xs, hx⟩ := List.exists_cons_of_ne_nil h1
    obtain ⟨y, ys, hy⟩ := List.exists_cons_of_ne_nil h2
    subst hx
    subst hy
    have hlen := h.length_eq
    have hsum := h.sum_eq
    unfold scoreOfCounts
    simp only [List.isEmpty_cons, Bool.false_eq_true, if_false]
    simp only [hsum, hlen]
    rw [(h.map (fun c => (c - (y :: ys).sum / ((y :: ys).length : Rat)) ^ 2)).sum_eq]

/-- Claim C10: the balance score depends only on the multiset of per-team
assignment counts — schedules whose teams mappings yield permuted count lists
score identically, whatever their identifiers, reservations, members, travel
times, ordering, scenario ids, score dictionaries, or notes. -/
theorem claim_C10 (s1 s2 : Schedule)
    (hperm : (teamCountsNat s1).Perm (teamCountsNat s2)) :
    calculate_balance_score s1 = calculate_balance_score s2 := by
  rw [calculate_balance_score_counts s1, calculate_balance_score_counts s2]
  apply scoreOfCounts_perm
  rw [teamCountsQ_eq_map, teamCountsQ_eq_map]
  exact hperm.map _

/-- A schedule with counts 2, 1. -/
def schedPermA : Schedule :=
  ⟨10, [(1, [demoAssignment, demoAssignment]), (2, [demoAssignment])], [], "a"⟩

/-- A schedule with counts 1, 2 under different team ids, score and notes. -/
def schedPermB : Schedule :=
  ⟨11, [(7, [demoAssignment]), (9, [demoAssignment, demoAssignment])],
    [("balance", 1)], "b"⟩

/-- Witness for claim C10 at two concrete schedules with permuted counts. -/
theorem claim_C10_witness :
    calculate_balance_score schedPermA = calculate_balance_score schedPermB :=
  claim_C10 schedPermA schedPermB (by decide)
